import Mathlib

/-!
Verification of the `torch_llms` evaluation-harness adapter
(`lm_eval/models/custom_lm.py`).

The file gives a shallow embedding of the adapter methods that the claims
talk about and proves or refutes each claim.  The neural model itself is
abstracted as a function from an input token sequence to the per-position
log-softmaxed logit rows; the real-valued tensor entries are modelled by
integers, since the code applies only addition, subtraction, summation and
order comparisons to them (any linearly ordered additive group would do,
and integers keep every definition executable).  The
sampling primitive of the inference library is abstracted as a function
from the tokens absorbed so far to the next sampled token id.  Everything
else (masking, gathering, summation, caching, the decode loop, the stop
handling, the dynamic-typing failures) is translated line by line from the
source.
-/

set_option autoImplicit false

namespace CustomLM

/-- Python exception kinds that the modelled code can raise. -/
inductive PyErr where
  | assertionError
  | indexError
  | typeError
  | nameError
deriving DecidableEq, Repr

/-- A log-likelihood request, `((context string, generation string),
context tokens, generation tokens)`, as in the docstring of
`_loglikelihood_tokens_unbatched` (custom_lm.py line 148). -/
abbrev LLReq := (String × String) × List ℕ × List ℕ

/-- The memoization table `self.ll_cache` (custom_lm.py line 30): context
string to stored log-probability vector.  A Python dict assignment on a
fresh key is modelled by consing; `List.lookup` finds the newest binding,
matching dict lookup on every reachable state (the code only ever stores
under a key that is absent, since present keys take the cache-hit path). -/
abbrev LLCache := List (String × List ℤ)

/-- First index attaining the maximum of a list, as `torch.argmax` /
`logits.max(dim=-1)[1]` return for a row (first occurrence on ties).
Returns `0` on the empty list, which no success path ever consults. -/
def idxOfMax (l : List ℤ) : ℕ :=
  (l.foldl
    (fun acc q =>
      if acc.1 < q then (q, acc.2.2, acc.2.2 + 1) else (acc.1, acc.2.1, acc.2.2 + 1))
    (l.headD 0, 0, 0)).2.1

/-- Bounds-checked tensor indexing `v[g]` for a 1-D tensor, raising
`IndexError` out of range as torch does. -/
def pyIndex (v : List ℤ) (g : ℕ) : Except PyErr ℤ :=
  if g < v.length then .ok (v.getD g 0) else .error .indexError

/-- One step of `torch.gather(logits, 2, labels.unsqueeze(2))`
(custom_lm.py line 179): pick the log-probability of the actual label
token out of a log-softmaxed row. -/
def gatherRow (row : List ℤ) (lab : ℕ) : ℤ :=
  row.getD lab 0

/-- Model of `_loglikelihood_tokens_unbatched` (custom_lm.py lines
140-192).  `L` is the composite `log_softmax(model.forward(sequences))`,
returning one log-probability row per input position.  The batch dimension
is 1 (asserted by the code), so the `pad_sequence` calls are no-ops and
are dropped.  Returns the `(log likelihood, greedy flag)` pairs and the
updated `ll_cache`. -/
def llUnbatched (L : List ℕ → List (List ℤ)) (st : LLCache) :
    List LLReq → Except PyErr (List (ℤ × Bool) × LLCache)
  | [r] =>
    let ctxStr := r.1.1
    let ctx := r.2.1
    let gen := r.2.2
    -- line 157: `if requests[0][0][0] in self.ll_cache and len(requests[0][2]) == 1`
    if (List.lookup ctxStr st).isSome ∧ gen.length = 1 then
      let v := (List.lookup ctxStr st).getD []
      let g := gen.headD 0
      -- lines 158-160: read the stored vector, compare argmax, gather one entry
      match pyIndex v g with
      | .error e => .error e
      | .ok q => .ok ([(q, decide (idxOfMax v = g))], st)
    else
      -- line 162: masks = [0]*len(ctx) + [1]*len(gen), then line 169 drops column 0
      let mask := (List.replicate ctx.length false ++ List.replicate gen.length true).drop 1
      -- line 165: sequences = context_tokens + generation_tokens
      let seq := ctx ++ gen
      -- lines 171-172: labels = sequences[:, 1:]; sequences = sequences[:, :-1]
      let labels := seq.drop 1
      let inputs := seq.dropLast
      -- lines 174-176: log-softmaxed logits of the forward pass
      let logits := L inputs
      -- line 179: gather the log-probabilities of the actual labels
      let expanded := List.zipWith gatherRow logits labels
      -- line 180: sum of the gathered log-probabilities over unmasked positions
      let traj := (List.zipWith (fun e m => if m then e else 0) expanded mask).sum
      -- lines 189-190: greedy check `((argmax == labels) * masks).all(dim=1)`
      let argmaxes := logits.map idxOfMax
      let greedy := (List.zipWith (fun b m => b && m)
          (List.zipWith (fun a lab => decide (a = lab)) argmaxes labels) mask).all id
      -- lines 183-184: store `traj - expanded[0, -1] + logits[0, -1]` for 1-token generations
      if gen.length = 1 then
        match expanded.getLast?, logits.getLast? with
        | some le, some lrow =>
            .ok ([(traj, greedy)], (ctxStr, lrow.map (fun q => traj - le + q)) :: st)
        | _, _ => .error .indexError
      else
        .ok ([(traj, greedy)], st)
  | _ => .error .assertionError  -- line 155: `assert len(requests) == 1`

/-- Model of `_loglikelihood_tokens` (custom_lm.py lines 194-211): loop
over the requests, feeding each one as a singleton batch to
`_loglikelihood_tokens_unbatched` and extending the result list. -/
def llTokens (L : List ℕ → List (List ℤ)) (st : LLCache) :
    List LLReq → Except PyErr (List (ℤ × Bool) × LLCache)
  | [] => .ok ([], st)
  | r :: rest =>
    match llUnbatched L st [r] with
    | .error e => .error e
    | .ok (res1, st1) =>
      match llTokens L st1 rest with
      | .error e => .error e
      | .ok (res2, st2) => .ok (res1 ++ res2, st2)

/-- Keys currently present in the `ll_cache`. -/
def cacheKeys (st : LLCache) : List String :=
  st.map (fun kv => kv.1)

/-- Model of `tok_encode` (custom_lm.py lines 115-138).  `encode` stands
for `self.tokenizer.encode` with its `add_special_tokens` argument;
`left_truncate_len` is tested for Python truthiness, and a truthy value
`k` keeps the slice `encoding[-k:]`. -/
def tok_encode (encode : String → Bool → List ℕ) (add_bos_token : Bool)
    (s : String) (left_truncate_len : Option ℕ) (add_special_tokens : Option Bool) :
    List ℕ :=
  let special :=
    match add_special_tokens with
    | none => false || add_bos_token  -- line 126: `False or self.add_bos_token`
    | some b => b
  let encoding := encode s special
  match left_truncate_len with
  | none => encoding
  | some k => if k ≠ 0 then encoding.drop (encoding.length - k) else encoding

/-- Concrete log-softmax-of-forward function used for concrete runs: on
the two-position input `[0, 1]` it returns the rows `[9, 0, 0]` and
`[0, 1, 5]` (vocabulary size 3). -/
def Lex : List ℕ → List (List ℤ) :=
  fun _ => [[9, 0, 0], [0, 1, 5]]

/-- Concrete request: context string "ab" with tokens `[0, 1]`, generation
string "c" with the single token `[2]`. -/
def reqEx : LLReq := (("ab", "c"), [0, 1], [2])

/-- Decidable equality for `Except`, needed to evaluate concrete runs. -/
def exceptDecEq {ε α : Type} [DecidableEq ε] [DecidableEq α] :
    DecidableEq (Except ε α) := fun a b =>
  match a, b with
  | .ok x, .ok y =>
    if h : x = y then .isTrue (by rw [h])
    else .isFalse (by intro hc; cases hc; exact h rfl)
  | .error x, .error y =>
    if h : x = y then .isTrue (by rw [h])
    else .isFalse (by intro hc; cases hc; exact h rfl)
  | .ok _, .error _ => .isFalse (by intro hc; cases hc)
  | .error _, .ok _ => .isFalse (by intro hc; cases hc)

instance {ε α : Type} [DecidableEq ε] [DecidableEq α] : DecidableEq (Except ε α) :=
  exceptDecEq

/-- Observable events of a `generate` call (custom_lm.py lines 240-277),
indexed by the position `conv` of the conversation in the batch:
`reset` is `self.kv_cache.reset()` (line 245); `fwd` is a call
`self.model(input, kv_cache)` recording the tokens the KV cache had
absorbed at call time (`kvIn`) and the tokens fed in (`input`)
(lines 250 and 258); `warnPrint` is the `[warning] max_new_tokens reached`
print of line 266, recording the token list generated so far. -/
inductive Event where
  | reset (conv : ℕ)
  | fwd (conv : ℕ) (kvIn : List ℕ) (input : List ℕ)
  | warnPrint (conv : ℕ) (toksPre : List ℕ)
deriving DecidableEq, Repr

/-- Whether an event is a forward pass of conversation `j`. -/
def Event.isFwdOf (j : ℕ) : Event → Bool
  | .fwd k _ _ => k == j
  | _ => false

/-- KV-cache contents observed by a forward-pass event. -/
def Event.kvIn? : Event → Option (List ℕ)
  | .fwd _ kv _ => some kv
  | _ => none

/-- Python slice `xs[-k:]`, used by the stop check
`new_tokens[-len(self.eot_ids):]` (custom_lm.py lines 254 and 262). -/
def lastSlice (xs : List ℕ) (k : ℕ) : List ℕ :=
  if k = 0 then xs else xs.drop (xs.length - k)

/-- A conversation, `[{"role": ..., "content": ...}, ...]`, as a list of
role-content pairs. -/
abbrev Conv := List (String × String)

/-- The inner decode loop `for i in range(1, max_length)` (custom_lm.py
lines 257-263).  `M` maps the tokens absorbed by the model so far to the
next sampled token (`inference.utils.sample` composed with the forward
pass); `fuel` counts the remaining loop iterations (`max_length - 1` at
the call site), `i` is the current Python loop index, `kv` the tokens the
KV cache has absorbed, `cur` the token sampled last, `toks` the
`new_tokens` list.  Returns the forward events, the final `new_tokens`,
the final KV contents, and the last value assigned to the loop variable
`i` (`none` when the loop body never ran). -/
def decodeLoop (M : List ℕ → ℕ) (j : ℕ) (eotIds : List ℕ) :
    ℕ → ℕ → List ℕ → ℕ → List ℕ → List Event × List ℕ × List ℕ × Option ℕ
  | 0, _, kv, _, toks => ([], toks, kv, none)
  | fuel + 1, i, kv, cur, toks =>
    let kv' := kv ++ [cur]
    let t := M kv'
    let toks' := toks ++ [t]
    let ev := Event.fwd j kv [cur]
    if lastSlice toks' eotIds.length = eotIds then
      ([ev], toks', kv', some i)  -- line 263: break out of the loop
    else
      let r := decodeLoop M j eotIds fuel (i + 1) kv' t toks'
      (ev :: r.1, r.2.1, r.2.2.1, some (r.2.2.2.getD i))

/-- Result of decoding one conversation (one iteration of the outer loop
of `generate`, custom_lm.py lines 244-267, before the response
post-processing). -/
structure ConvOut where
  toksPre : List ℕ    -- `new_tokens` before the length-cap check
  warned : Bool       -- whether line 266 printed the warning
  toksFinal : List ℕ  -- `new_tokens` after the possible forced append
  kv : List ℕ         -- tokens absorbed by `self.kv_cache`
  iVar : Option ℕ     -- value of the Python variable `i` after this conversation
deriving DecidableEq, Repr

/-- The part of a `generate` iteration after the first-token early-return
check (custom_lm.py lines 257-267): run the decode loop, then the
length-cap check `if i == max_length - 1` using the stale loop variable
`iVar` when the loop body never ran (Python raises `NameError` when `i`
was never assigned at all), then the warning and the forced append of
`eot_ids`. -/
def runConvTail (M : List ℕ → ℕ) (eotIds : List ℕ) (j : ℕ) (iVar : Option ℕ)
    (kv1 : List ℕ) (t0 : ℕ) (ml : ℕ) : List Event × Except PyErr ConvOut :=
  let d := decodeLoop M j eotIds (ml - 1) 1 kv1 t0 [t0]
  match d.2.2.2.orElse (fun _ => iVar) with
  | none => (d.1, .error .nameError)  -- `i` unbound at line 265
  | some iF =>
    let warned := decide ((iF : ℤ) = (ml : ℤ) - 1)
    (d.1 ++ (if warned then [Event.warnPrint j d.2.1] else []),
     .ok { toksPre := d.2.1,
           warned := warned,
           toksFinal := if warned then d.2.1 ++ eotIds else d.2.1,  -- line 267
           kv := d.2.2.1,
           iVar := some iF })

/-- Dynamically typed Python values, for the places where the adapter
passes values of the wrong type (the `generate_until` marshalling and the
`loglikelihood_rolling` batch-tokenizer call). -/
inductive PyV where
  | int (n : ℕ)
  | str (s : String)
  | list (xs : List PyV)
  | dict (kvs : List (String × PyV))

/-- Python `str.strip()`: remove leading and trailing whitespace
(custom_lm.py line 269). -/
def pyStrip (s : String) : String :=
  String.mk ((((s.data.dropWhile Char.isWhitespace).reverse).dropWhile
    Char.isWhitespace).reverse)

/-- Whether `sep` is an initial segment of a character list. -/
def sepLeads : List Char → List Char → Bool
  | [], _ => true
  | _ :: _, [] => false
  | a :: as, b :: bs => a = b && sepLeads as bs

/-- Characters of `s` before the first occurrence of `sep` in `s`. -/
def splitHeadAux (sep : List Char) : List Char → List Char
  | [] => []
  | c :: cs => if sepLeads sep (c :: cs) then [] else c :: splitHeadAux sep cs

/-- Python `response.split(sep)[0]` for a non-empty string separator. -/
def pySplitHead (resp sep : String) : String :=
  String.mk (splitHeadAux sep.data resp.data)

/-- The response-truncation loop `for stop_seq in stop_seqs` of
custom_lm.py lines 271-273.  Note the loop iterates over the whole
`stop_seqs` argument of `generate` (the per-conversation variable of the
same name from line 244 is shadowed), so every element (one per request)
is applied to the response: `len(stop_seq)` raises `TypeError` on an int
element, and `response.split(stop_seq)` raises `TypeError` on a non-empty
list element. -/
def pyStopFold (resp : String) : List PyV → Except PyErr String
  | [] => .ok resp
  | .int _ :: _ => .error .typeError  -- `len` of an int
  | .str s :: rest =>
    if 0 < s.length then pyStopFold (pySplitHead resp s) rest else pyStopFold resp rest
  | .list xs :: rest =>
    if 0 < xs.length then .error .typeError  -- `str.split` of a list
    else pyStopFold resp rest
  | .dict kvs :: rest =>
    if 0 < kvs.length then .error .typeError  -- `str.split` of a dict
    else pyStopFold resp rest

/-- Return value of `generate`: normally the list of decoded responses
(line 277); on the early return of line 255 the pair
`([], self.kv_cache)` instead, with the KV cache given by the tokens it
has absorbed. -/
inductive GenRet where
  | strs (resps : List String)
  | earlyPair (resps : List String) (kv : List ℕ)
deriving DecidableEq, Repr

/-- The outer loop of `generate` over `zip(prompts, max_lengths,
stop_seqs)` (custom_lm.py lines 244-275).  `dec` models
`self.tokenizer.decode(..., skip_special_tokens=True)`.  The `max_length`
element of each zipped tuple is dynamically typed: `range(1, max_length)`
raises `TypeError` unless it is an int.  The per-conversation `stop_seq`
component is dead (shadowed at line 271), so only prompts and max-lengths
are threaded; `stopAll` is the full `stop_seqs` argument used by the
response-truncation loop.  Returns the event trace and the result. -/
def genLoopDyn (M : List ℕ → ℕ) (dec : List ℕ → String) (eotIds : List ℕ)
    (stopAll : List PyV) :
    ℕ → Option ℕ → List String → List (List ℕ × PyV) →
    List Event × Except PyErr GenRet
  | _, _, acc, [] => ([], .ok (.strs acc))
  | j, iVar, acc, (p, mlv) :: rest =>
    -- line 245: self.kv_cache.reset(); lines 250-252: first forward and sample
    let kv1 : List ℕ := [] ++ p
    let t0 := M kv1
    let evs0 := [Event.reset j, Event.fwd j [] p]
    -- lines 254-255: early return when the first token completes eot_ids
    if lastSlice [t0] eotIds.length = eotIds then
      (evs0, .ok (.earlyPair [] kv1))
    else
      match mlv with
      | .int ml =>
        let tl := runConvTail M eotIds j iVar kv1 t0 ml
        match tl.2 with
        | .error e => (evs0 ++ tl.1, .error e)
        | .ok c =>
          -- line 269: decode and strip; lines 271-273: stop-sequence loop
          match pyStopFold (pyStrip (dec c.toksFinal)) stopAll with
          | .error e => (evs0 ++ tl.1, .error e)
          | .ok resp =>
            let r := genLoopDyn M dec eotIds stopAll (j + 1) c.iVar (acc ++ [resp]) rest
            (evs0 ++ tl.1 ++ r.1, r.2)
      | _ => (evs0, .error .typeError)  -- line 257: range(1, max_length) on a non-int

/-- Model of `generate` (custom_lm.py lines 240-277).  `chatT` models
`self.tokenizer.apply_chat_template(..., add_generation_prompt=True)` for
one conversation.  `max_lengths` and `stop_seqs` are kept dynamically
typed because the only caller in the file, `generate_until`, fills them
with values of the wrong type. -/
def generate (M : List ℕ → ℕ) (chatT : Conv → List ℕ) (dec : List ℕ → String)
    (eotIds : List ℕ) (conversations : List Conv)
    (max_lengths stop_seqs : List PyV) : List Event × Except PyErr GenRet :=
  let prompts := conversations.map chatT
  genLoopDyn M dec eotIds stop_seqs 0 none []
    (((prompts.zip max_lengths).zip stop_seqs).map (fun x => x.1))

/-- One harness request to `generate_until`: `args[0]` is the context
string, `args[1]` is the gen-kwargs dict with the `until` stop strings
(field `stopStrs` here) and the `max_gen_toks` token cap. -/
structure GenUntilReq where
  ctx : String
  stopStrs : List String
  maxGenToks : ℕ

/-- Model of `generate_until` (custom_lm.py lines 229-238), kept exactly
as the source marshals it: line 235 appends `request.args[1]["until"]`
(a list of strings) to the variable named `max_lengths` and line 236
appends `request.args[1]["max_gen_toks"]` (an int) to the variable named
`stop_seqs`; both are handed to `generate` in that order. -/
def generate_until (M : List ℕ → ℕ) (chatT : Conv → List ℕ)
    (dec : List ℕ → String) (eotIds : List ℕ) (reqs : List GenUntilReq) :
    List Event × Except PyErr GenRet :=
  let conversations : List Conv := reqs.map (fun r => [("user", r.ctx)])
  let max_lengths : List PyV := reqs.map (fun r => PyV.list (r.stopStrs.map PyV.str))
  let stop_seqs : List PyV := reqs.map (fun r => PyV.int r.maxGenToks)
  generate M chatT dec eotIds conversations max_lengths stop_seqs

/-- Model of the `transformers` batch-tokenizer call
`self.tokenizer(generations, add_special_tokens=False)` (custom_lm.py
line 218): on a list of strings it returns a `BatchEncoding`, a dict-like
object whose keys are `input_ids` and `attention_mask`. -/
def tokenizerBatchCall (encodeNoSpecial : String → List ℕ) (xs : List String) : PyV :=
  .dict
    [("input_ids", .list (xs.map (fun s => .list ((encodeNoSpecial s).map .int)))),
     ("attention_mask", .list (xs.map (fun s => .list ((encodeNoSpecial s).map (fun _ => .int 1)))))]

/-- Python iteration over a value: a list yields its elements and a dict
yields its keys (as `BatchEncoding` does); iterating an int fails. -/
def pyIterate : PyV → Except PyErr (List PyV)
  | .list xs => .ok xs
  | .dict kvs => .ok (kvs.map (fun kv => PyV.str kv.1))
  | .str s => .ok (s.data.map (fun c => PyV.str (String.mk [c])))
  | .int _ => .error .typeError

/-- Python `+` on dynamic values: concatenates two lists or two strings,
adds two ints, and raises `TypeError` on any mixed combination. -/
def pyAdd : PyV → PyV → Except PyErr PyV
  | .int a, .int b => .ok (.int (a + b))
  | .str a, .str b => .ok (.str (a ++ b))
  | .list a, .list b => .ok (.list (a ++ b))
  | _, _ => .error .typeError

/-- The comprehension `[generation + [self.eot_token_id] for generation in
generations]` of custom_lm.py line 219, applied to the already-iterated
elements. -/
def pyMapAddEot (eot : ℕ) : List PyV → Except PyErr (List PyV)
  | [] => .ok []
  | g :: rest =>
    match pyAdd g (.list [.int eot]) with
    | .error e => .error e
    | .ok g' =>
      match pyMapAddEot eot rest with
      | .error e => .error e
      | .ok rest' => .ok (g' :: rest')

/-- Model of `loglikelihood_rolling` (custom_lm.py lines 214-227) up to
its first statement that can fail.  Line 218 replaces the list of request
strings by the `BatchEncoding` returned by the batch tokenizer call; line
219 then iterates that dict-like object, obtaining its string keys, and
evaluates `generation + [self.eot_token_id]` on each.  The theorem below
proves this raises `TypeError` on every input, so the remaining lines
(221-227) are unreachable and the intermediate value is returned
unchanged in the (dead) success case. -/
def loglikelihood_rolling (encodeNoSpecial : String → List ℕ) (eot : ℕ)
    (requests : List String) : Except PyErr (List PyV) :=
  let generations := tokenizerBatchCall encodeNoSpecial requests
  match pyIterate generations with
  | .error e => .error e
  | .ok gens =>
    match pyMapAddEot eot gens with
    | .error e => .error e
    | .ok gens' => .ok gens'

/-- Concrete sampler for counterexample runs: emits token `1` when the
model has absorbed exactly the prompt `[5]`, and token `0` afterwards. -/
def Mex : List ℕ → ℕ :=
  fun xs => if xs = [5] then 1 else 0

/-- Concrete sampler that emits the end-of-text token `0` immediately. -/
def MexEos : List ℕ → ℕ :=
  fun _ => 0

/-- Concrete chat-template function: every conversation renders to the
prompt `[5]`. -/
def chatTex : Conv → List ℕ :=
  fun _ => [5]

/-- Concrete detokenizer: decodes every token list to the empty string. -/
def decEx : List ℕ → String :=
  fun _ => ""

/-- Concrete tokenizer-encode function for witnesses. -/
def encEx : String → Bool → List ℕ :=
  fun _ _ => [3, 4, 5]

/-!  Theorems. -/

/-- Claim C9: for every string and positive `k`,
`tok_encode(s, left_truncate_len=k)` is a suffix of `tok_encode(s)` of
length at most `k`; with `left_truncate_len` equal to `None` or `0` the
full encoding is returned unchanged. -/
theorem tok_encode_truncation (encode : String → Bool → List ℕ)
    (add_bos_token : Bool) (s : String) (ast : Option Bool) (k : ℕ) :
    (0 < k →
      List.IsSuffix (tok_encode encode add_bos_token s (some k) ast)
          (tok_encode encode add_bos_token s none ast)
      ∧ (tok_encode encode add_bos_token s (some k) ast).length ≤ k)
    ∧ tok_encode encode add_bos_token s (some 0) ast
        = tok_encode encode add_bos_token s none ast
    ∧ tok_encode encode add_bos_token s none ast
        = encode s (ast.getD add_bos_token) := by
  refine ⟨fun hk => ?_, by simp [tok_encode], by cases ast <;> simp [tok_encode]⟩
  have hkne : k ≠ 0 := Nat.pos_iff_ne_zero.mp hk
  simp only [tok_encode, if_pos hkne]
  exact ⟨List.drop_suffix _ _, by rw [List.length_drop]; omega⟩

/-- Witness for `tok_encode_truncation` at a concrete encoder and `k = 2`. -/
theorem tok_encode_truncation_witness :
    List.IsSuffix (tok_encode encEx false "ab" (some 2) none)
        (tok_encode encEx false "ab" none none)
    ∧ (tok_encode encEx false "ab" (some 2) none).length ≤ 2 :=
  (tok_encode_truncation encEx false "ab" none 2).1 (by decide)

/-- Claim C1: on a cache miss with context tokens `[0, 1]` and the single
generation token `2`, the returned log likelihood is the log-softmax row
gathered at the generation token (the masked sum, here `5`), but the
greedy flag is `false` even though the generation token is exactly the
argmax of the log-softmaxed row at its position: the code multiplies the
per-position match bits by the mask and then requires all entries to be
true, so the masked-out context positions force the flag to `false`
whenever the context holds at least two tokens, contradicting the comment
at custom_lm.py lines 187-188. -/
theorem llUnbatched_greedy_bug :
    llUnbatched Lex [] [reqEx] = .ok ([((5:ℤ), false)], [("ab", [0, 1, 5])])
    ∧ idxOfMax ((Lex [0, 1]).getLastD []) = 2
    ∧ gatherRow ((Lex [0, 1]).getLastD []) 2 = 5 := by decide

/-- Claim C2, counterexample: for the request with two context tokens and
one generation token equal to the argmax, the fresh forward-pass
computation returns the pair `(5, false)` while the cache-hit path on the
very entry stored by that computation returns `(5, true)` — the cache hit
does not return the same pair the fresh computation returns. -/
theorem ll_cache_hit_counterexample :
    llUnbatched Lex [] [reqEx] = .ok ([((5:ℤ), false)], [("ab", [0, 1, 5])])
    ∧ llUnbatched Lex [("ab", [0, 1, 5])] [reqEx]
        = .ok ([((5:ℤ), true)], [("ab", [0, 1, 5])])
    ∧ (((5:ℤ), false) : ℤ × Bool) ≠ ((5:ℤ), true) := by decide

/-- Claim C5: `loglikelihood_rolling` never returns a list of per-request
scores — it raises `TypeError` on every input, because line 218 rebinds
`generations` to the `BatchEncoding` returned by the batch tokenizer
call, and the comprehension of line 219 then iterates the string keys of
that dict-like object and evaluates `str + list`. -/
theorem rolling_raises_typeerror (encodeNoSpecial : String → List ℕ) (eot : ℕ)
    (requests : List String) :
    loglikelihood_rolling encodeNoSpecial eot requests = .error .typeError := rfl

/-- Claim C10: when the first sampled token of the first conversation
completes `eot_ids`, `generate` returns the pair `([], kv_cache)` (not a
list of decoded responses), having emitted only the reset and the single
prompt forward pass of conversation `0` — no later conversation is
processed. -/
theorem generate_first_token_eot (M : List ℕ → ℕ) (chatT : Conv → List ℕ)
    (dec : List ℕ → String) (eotIds : List ℕ) (c0 : Conv) (cs : List Conv)
    (mlv : PyV) (mlvs : List PyV) (ssv : PyV) (ssvs : List PyV)
    (h : lastSlice [M (chatT c0)] eotIds.length = eotIds) :
    generate M chatT dec eotIds (c0 :: cs) (mlv :: mlvs) (ssv :: ssvs)
      = ([Event.reset 0, Event.fwd 0 [] (chatT c0)],
         .ok (.earlyPair [] (chatT c0))) := by
  simp [generate, genLoopDyn, h]

/-- Witness for `generate_first_token_eot`: a sampler that emits the
end-of-text token immediately, with a second conversation in the batch. -/
theorem generate_first_token_eot_witness :
    generate MexEos chatTex decEx [0] [[("user", "a")], [("user", "b")]]
        [PyV.int 7, PyV.int 9] [PyV.list [], PyV.list []]
      = ([Event.reset 0, Event.fwd 0 [] (chatTex [("user", "a")])],
         .ok (.earlyPair [] (chatTex [("user", "a")]))) :=
  generate_first_token_eot MexEos chatTex decEx [0] [("user", "a")]
    [[("user", "b")]] (PyV.int 7) [PyV.int 9] (PyV.list []) [PyV.list []]
    (by decide)

/-- Claim C3: whenever the first conversation does not hit the
first-token early return, `generate_until` raises `TypeError`: line 235
stores each request `until` list (the stop strings) in `max_lengths` and
line 236 stores each `max_gen_toks` int in `stop_seqs`, so
`range(1, max_length)` in `generate` receives a list of strings. -/
theorem generate_until_crashes (M : List ℕ → ℕ) (chatT : Conv → List ℕ)
    (dec : List ℕ → String) (eotIds : List ℕ) (r : GenUntilReq)
    (rest : List GenUntilReq)
    (h : lastSlice [M (chatT [("user", r.ctx)])] eotIds.length ≠ eotIds) :
    (generate_until M chatT dec eotIds (r :: rest)).2 = .error .typeError := by
  simp [generate_until, generate, genLoopDyn, h]

/-- Witness for `generate_until_crashes` at a concrete request. -/
theorem generate_until_crashes_witness :
    (generate_until Mex chatTex decEx [0]
        [{ ctx := "hi", stopStrs := ["x"], maxGenToks := 16 }]).2
      = .error .typeError :=
  generate_until_crashes Mex chatTex decEx [0]
    { ctx := "hi", stopStrs := ["x"], maxGenToks := 16 } [] (by decide)

/-- Claim C4, counterexample: with `max_length = 2` and a sampler whose
second token completes `eot_ids = [0]`, the decode loop breaks at its
final index, the warning is printed and the end-of-text ids are appended
even though the sampled tokens `[1, 0]` already end in the end-of-text
sequence — the warning is not restricted to runs that end without the
end-of-text sequence, and the call still succeeds. -/
theorem generate_warn_counterexample :
    Event.warnPrint 0 [1, 0]
        ∈ (generate Mex chatTex decEx [0] [[("user", "hi")]]
            [PyV.int 2] [PyV.list []]).1
    ∧ lastSlice [1, 0] (List.length [0]) = [0]
    ∧ (generate Mex chatTex decEx [0] [[("user", "hi")]]
          [PyV.int 2] [PyV.list []]).2
        = .ok (.strs [""]) := by decide

/-- A call of `_loglikelihood_tokens_unbatched` on a singleton batch never
fails the batch-size assertion: it either succeeds with exactly one result
pair and a cache that keeps every previous key, or raises `IndexError`
from a tensor access. -/
theorem llUnbatched_cases (L : List ℕ → List (List ℤ)) (st : LLCache) (r : LLReq) :
    (∃ res st2, llUnbatched L st [r] = .ok (res, st2) ∧ res.length = 1
      ∧ ∀ k, k ∈ cacheKeys st → k ∈ cacheKeys st2)
    ∨ llUnbatched L st [r] = .error .indexError := by
  simp only [llUnbatched]
  split
  · split
    next e heq =>
      refine .inr ?_
      unfold pyIndex at heq
      split at heq
      · exact absurd heq (by simp)
      · cases heq; rfl
    next q heq => exact .inl ⟨_, _, rfl, rfl, fun k hk => hk⟩
  · split
    · split
      next le lrow h1 h2 =>
        exact .inl ⟨_, _, rfl, rfl, fun k hk => List.mem_cons_of_mem _ hk⟩
      next => exact .inr rfl
    · exact .inl ⟨_, _, rfl, rfl, fun k hk => hk⟩

/-- Claim C6: `_loglikelihood_tokens` feeds each request as a singleton
batch to `_loglikelihood_tokens_unbatched`, so the `assert len(requests)
== 1` can never fail on this call path, and a successful call returns
exactly one result pair per request (in request order, the result list
being the in-order concatenation of the singleton results). -/
theorem llTokens_per_request (L : List ℕ → List (List ℤ)) (st : LLCache)
    (reqs : List LLReq) :
    llTokens L st reqs ≠ .error .assertionError
    ∧ ∀ res st2, llTokens L st reqs = .ok (res, st2) →
        res.length = reqs.length := by
  induction reqs generalizing st with
  | nil =>
    refine ⟨by simp [llTokens], fun res st2 h => ?_⟩
    simp only [llTokens, Except.ok.injEq, Prod.mk.injEq] at h
    simp [← h.1]
  | cons r rest ih =>
    rcases llUnbatched_cases L st r with ⟨res1, st1, hok, hlen, _⟩ | herr
    · rcases ih st1 with ⟨ihne, ihlen⟩
      cases hrec : llTokens L st1 rest with
      | error e =>
        have hall : llTokens L st (r :: rest) = .error e := by
          simp [llTokens, hok, hrec]
        refine ⟨?_, fun res st2 h => ?_⟩
        · rw [hall]; intro hc; cases hc; exact ihne hrec
        · rw [hall] at h; exact Except.noConfusion h
      | ok p =>
        have hall : llTokens L st (r :: rest) = .ok (res1 ++ p.1, p.2) := by
          simp [llTokens, hok, hrec]
        refine ⟨?_, fun res st2 h => ?_⟩
        · rw [hall]; exact fun hc => Except.noConfusion hc
        · rw [hall, Except.ok.injEq, Prod.mk.injEq] at h
          obtain ⟨h1, _⟩ := h
          have hrest := ihlen p.1 p.2 (by rw [hrec])
          rw [← h1]
          simp only [List.length_append, List.length_cons, hlen, hrest]
          omega
    · have hall : llTokens L st (r :: rest) = .error .indexError := by
        simp [llTokens, herr]
      refine ⟨?_, fun res st2 h => ?_⟩
      · rw [hall]; intro hc; cases hc
      · rw [hall] at h; exact Except.noConfusion h

/-- Witness for `llTokens_per_request`: a concrete two-request run returns
two result pairs. -/
theorem llTokens_per_request_witness :
    ([((5:ℤ), false), ((5:ℤ), true)] : List (ℤ × Bool)).length
      = [reqEx, reqEx].length :=
  (llTokens_per_request Lex [] [reqEx, reqEx]).2
    [((5:ℤ), false), ((5:ℤ), true)] [("ab", [0, 1, 5])] (by decide)

/-- Claim C8: `_loglikelihood_tokens` never deletes a cache entry — every
key present in `ll_cache` before a successful call is still present after
it (the cache only ever grows, by the single-token-generation store of
line 184; no other method of the adapter touches `ll_cache`). -/
theorem ll_cache_monotone (L : List ℕ → List (List ℤ)) (st : LLCache)
    (reqs : List LLReq) (res : List (ℤ × Bool)) (st2 : LLCache)
    (h : llTokens L st reqs = .ok (res, st2)) :
    ∀ k, k ∈ cacheKeys st → k ∈ cacheKeys st2 := by
  induction reqs generalizing st res with
  | nil =>
    simp only [llTokens, Except.ok.injEq, Prod.mk.injEq] at h
    rw [← h.2]
    exact fun k hk => hk
  | cons r rest ih =>
    rcases llUnbatched_cases L st r with ⟨res1, st1, hok, _, hsub⟩ | herr
    · cases hrec : llTokens L st1 rest with
      | error e =>
        simp only [llTokens, hok, hrec] at h
        exact Except.noConfusion h
      | ok p =>
        simp only [llTokens, hok, hrec, Except.ok.injEq, Prod.mk.injEq] at h
        exact fun k hk => ih st1 p.1 (by rw [hrec, ← h.2]) k (hsub k hk)
    · simp only [llTokens, herr] at h
      exact Except.noConfusion h

/-- Witness for `ll_cache_monotone`: the pre-existing key "z" survives a
run that stores a new entry under "ab". -/
theorem ll_cache_monotone_witness :
    "z" ∈ cacheKeys [("ab", [0, 1, 5]), ("z", [(1:ℤ)])] :=
  ll_cache_monotone Lex [("z", [(1:ℤ)])] [reqEx] [((5:ℤ), false)]
    [("ab", [0, 1, 5]), ("z", [(1:ℤ)])] (by decide) "z" (by decide)

/-- When the decode loop gets positive fuel, the loop variable is
assigned, its final value lies between the starting index and the last
index of the range, and the token list grows by one token per executed
iteration. -/
theorem decodeLoop_li (M : List ℕ → ℕ) (j : ℕ) (eotIds : List ℕ) (fuel : ℕ) :
    ∀ (i : ℕ) (kv : List ℕ) (cur : ℕ) (toks : List ℕ), 0 < fuel →
      ∃ iF, (decodeLoop M j eotIds fuel i kv cur toks).2.2.2 = some iF
        ∧ i ≤ iF ∧ iF ≤ i + fuel - 1
        ∧ (decodeLoop M j eotIds fuel i kv cur toks).2.1.length
            = toks.length + (iF - i) + 1 := by
  induction fuel with
  | zero => intro i kv cur toks h; omega
  | succ f ihf =>
    intro i kv cur toks _
    simp only [decodeLoop]
    split
    · exact ⟨i, rfl, le_refl i, by omega, by simp⟩
    · cases Nat.eq_zero_or_pos f with
      | inl hf0 =>
        subst hf0
        exact ⟨i, by simp [decodeLoop], le_refl i, by omega, by simp [decodeLoop]⟩
      | inr hfpos =>
        obtain ⟨iF, h1, h2, h3, h4⟩ :=
          ihf (i + 1) (kv ++ [cur]) (M (kv ++ [cur])) (toks ++ [M (kv ++ [cur])]) hfpos
        refine ⟨iF, by simp [h1], by omega, by omega, ?_⟩
        simp only [h4, List.length_append, List.length_cons, List.length_nil]
        omega

/-- Every event emitted by the decode loop is a forward pass of the
current conversation. -/
theorem decodeLoop_events (M : List ℕ → ℕ) (j : ℕ) (eotIds : List ℕ) (fuel : ℕ) :
    ∀ (i : ℕ) (kv : List ℕ) (cur : ℕ) (toks : List ℕ) (e : Event),
      e ∈ (decodeLoop M j eotIds fuel i kv cur toks).1 →
      ∃ kv0 inp, e = Event.fwd j kv0 inp := by
  induction fuel with
  | zero => intro i kv cur toks e he; simp [decodeLoop] at he
  | succ f ihf =>
    intro i kv cur toks e he
    simp only [decodeLoop] at he
    split at he
    · simp only [List.mem_singleton] at he
      exact ⟨kv, [cur], he⟩
    · simp only [List.mem_cons] at he
      rcases he with he | he
      · exact ⟨kv, [cur], he⟩
      · exact ihf _ _ _ _ e he

/-- Claim C4 (amended): whenever the decode loop of a conversation runs
(`max_length` at least 2), it never raises; the warning is printed and the
end-of-text ids are force-appended exactly when the sampled token list
reaches `max_length` tokens — the final loop index equals
`max_length - 1` — regardless of whether those tokens already end in the
end-of-text sequence. -/
theorem runConvTail_warn (M : List ℕ → ℕ) (eotIds : List ℕ) (j : ℕ)
    (iVar : Option ℕ) (kv1 : List ℕ) (t0 : ℕ) (ml : ℕ) (h2 : 2 ≤ ml) :
    ∃ c, (runConvTail M eotIds j iVar kv1 t0 ml).2 = .ok c
      ∧ (c.warned = true ↔ c.toksPre.length = ml)
      ∧ c.toksFinal = (if c.warned then c.toksPre ++ eotIds else c.toksPre)
      ∧ ((Event.warnPrint j c.toksPre ∈ (runConvTail M eotIds j iVar kv1 t0 ml).1)
           ↔ c.warned = true) := by
  obtain ⟨iF, h1, hlo, hhi, hlen⟩ :=
    decodeLoop_li M j eotIds (ml - 1) 1 kv1 t0 [t0] (by omega)
  have hlen' : (decodeLoop M j eotIds (ml - 1) 1 kv1 t0 [t0]).2.1.length
      = iF + 1 := by
    simp only [List.length_singleton] at hlen
    omega
  have ho : ((decodeLoop M j eotIds (ml - 1) 1 kv1 t0 [t0]).2.2.2).orElse
      (fun _ => iVar) = some iF := by
    rw [h1]; rfl
  simp only [runConvTail, ho]
  refine ⟨_, rfl, ?_, rfl, ?_⟩
  · simp only [decide_eq_true_eq, hlen']
    omega
  · constructor
    · intro hm
      rcases List.mem_append.mp hm with hm | hm
      · obtain ⟨kv0, inp, heq⟩ :=
          decodeLoop_events M j eotIds (ml - 1) 1 kv1 t0 [t0] _ hm
        exact Event.noConfusion heq
      · by_cases hw : ((iF : ℤ) = (ml : ℤ) - 1)
        · simp [hw]
        · simp [hw] at hm
    · intro hw
      simp only [hw, if_true]
      exact List.mem_append.mpr (.inr (by simp [hw] at hw ⊢; simp [hw]))

/-- Witness for `runConvTail_warn` at the concrete cap-hitting run. -/
theorem runConvTail_warn_witness :
    ∃ c, (runConvTail Mex [0] 0 none [5] 1 2).2 = .ok c
      ∧ (c.warned = true ↔ c.toksPre.length = 2)
      ∧ c.toksFinal = (if c.warned then c.toksPre ++ [0] else c.toksPre)
      ∧ ((Event.warnPrint 0 c.toksPre ∈ (runConvTail Mex [0] 0 none [5] 1 2).1)
           ↔ c.warned = true) :=
  runConvTail_warn Mex [0] 0 none [5] 1 2 (by decide)

/-- Every event in the decode-loop tail of a conversation is a forward
pass or the warning print of that conversation. -/
theorem runConvTail_events (M : List ℕ → ℕ) (eotIds : List ℕ) (j : ℕ)
    (iVar : Option ℕ) (kv1 : List ℕ) (t0 : ℕ) (ml : ℕ) :
    ∀ e ∈ (runConvTail M eotIds j iVar kv1 t0 ml).1,
      (∃ kv0 inp, e = Event.fwd j kv0 inp) ∨ (∃ ts, e = Event.warnPrint j ts) := by
  intro e he
  simp only [runConvTail] at he
  split at he
  · exact .inl (decodeLoop_events M j eotIds (ml - 1) 1 kv1 t0 [t0] e he)
  · rcases List.mem_append.mp he with hm | hm
    · exact .inl (decodeLoop_events M j eotIds (ml - 1) 1 kv1 t0 [t0] e hm)
    · split at hm
      · simp only [List.mem_singleton] at hm
        exact .inr ⟨_, hm⟩
      · simp at hm

/-- A conversation with index different from `j` contributes no forward
event of conversation `j`. -/
theorem runConvTail_find_ne (M : List ℕ → ℕ) (eotIds : List ℕ) (j0 : ℕ)
    (iVar : Option ℕ) (kv1 : List ℕ) (t0 : ℕ) (ml : ℕ) (j : ℕ)
    (hne : (j0 == j) = false) :
    ((runConvTail M eotIds j0 iVar kv1 t0 ml).1).find? (Event.isFwdOf j) = none := by
  apply List.find?_eq_none.mpr
  intro x hx
  rcases runConvTail_events M eotIds j0 iVar kv1 t0 ml x hx with
    ⟨kv0, inp, rfl⟩ | ⟨ts, rfl⟩
  · simp [Event.isFwdOf, hne]
  · simp [Event.isFwdOf]

/-- Reduction of `Option.or` on a `some` left operand. -/
theorem option_some_or {α : Type} (a : α) (o : Option α) : (some a).or o = some a :=
  rfl

/-- Reduction of `Option.or` on a `none` left operand. -/
theorem option_none_or {α : Type} (o : Option α) : (Option.none : Option α).or o = o :=
  rfl

/-- The first forward event found in the reset-plus-prompt-forward
preamble of conversation `j0`. -/
theorem resetFwd_find (j0 j : ℕ) (p : List ℕ) :
    ([Event.reset j0, Event.fwd j0 [] p]).find? (Event.isFwdOf j)
      = if j0 = j then some (Event.fwd j0 [] p) else none := by
  by_cases hj : j0 = j
  · simp [List.find?, Event.isFwdOf, hj]
  · have hb : (j0 == j) = false := beq_eq_false_iff_ne.mpr hj
    simp [List.find?, Event.isFwdOf, hj, hb]

/-- In any trace produced by the generate loop, the first forward event of
any conversation carries an empty KV cache. -/
theorem genLoopDyn_first_fwd (M : List ℕ → ℕ) (dec : List ℕ → String)
    (eotIds : List ℕ) (stopAll : List PyV) :
    ∀ (items : List (List ℕ × PyV)) (j0 : ℕ) (iVar : Option ℕ)
      (acc : List String) (j : ℕ) (e : Event),
      ((genLoopDyn M dec eotIds stopAll j0 iVar acc items).1).find?
          (Event.isFwdOf j) = some e →
      Event.kvIn? e = some [] := by
  intro items
  induction items with
  | nil => intro j0 iVar acc j e h; simp [genLoopDyn] at h
  | cons it rest ih =>
    intro j0 iVar acc j e h
    obtain ⟨p, mlv⟩ := it
    simp only [genLoopDyn] at h
    split at h
    · -- early return: trace is the preamble alone
      dsimp only at h
      rw [resetFwd_find] at h
      split at h
      · cases h; rfl
      · exact Option.noConfusion h
    · split at h
      · -- int branch
        split at h
        · -- NameError from the decode tail
          dsimp only at h
          rw [List.find?_append, resetFwd_find] at h
          split at h
          next hj =>
            rw [option_some_or] at h
            cases h; rfl
          next hj =>
            rw [option_none_or, runConvTail_find_ne M eotIds j0 iVar _ _ _ j
              (beq_eq_false_iff_ne.mpr hj)] at h
            exact Option.noConfusion h
        · -- decode tail succeeded: stop folding
          split at h
          · -- TypeError from the stop fold
            dsimp only at h
            rw [List.find?_append, resetFwd_find] at h
            split at h
            next hj =>
              rw [option_some_or] at h
              cases h; rfl
            next hj =>
              rw [option_none_or, runConvTail_find_ne M eotIds j0 iVar _ _ _ j
                (beq_eq_false_iff_ne.mpr hj)] at h
              exact Option.noConfusion h
          · -- success: recurse into the remaining conversations
            dsimp only at h
            rw [List.append_assoc, List.find?_append, resetFwd_find] at h
            split at h
            next hj =>
              rw [option_some_or] at h
              cases h; rfl
            next hj =>
              rw [option_none_or, List.find?_append,
                runConvTail_find_ne M eotIds j0 iVar _ _ _ j
                  (beq_eq_false_iff_ne.mpr hj), option_none_or] at h
              exact ih _ _ _ j e h
      · -- non-int max_length: TypeError, trace is the preamble alone
        dsimp only at h
        rw [resetFwd_find] at h
        split at h
        · cases h; rfl
        · exact Option.noConfusion h

/-- Claim C7: in every `generate` call, the first forward pass of each
conversation observes an empty KV cache — `kv_cache.reset()` runs before
it, so no state from a previous generation request is visible. -/
theorem generate_kv_reset_fresh (M : List ℕ → ℕ) (chatT : Conv → List ℕ)
    (dec : List ℕ → String) (eotIds : List ℕ) (convs : List Conv)
    (mls sss : List PyV) (j : ℕ) (e : Event)
    (h : ((generate M chatT dec eotIds convs mls sss).1).find?
        (Event.isFwdOf j) = some e) :
    Event.kvIn? e = some [] := by
  exact genLoopDyn_first_fwd M dec eotIds sss _ 0 none [] j e h

/-- Witness for `generate_kv_reset_fresh` at a concrete two-step run. -/
theorem generate_kv_reset_fresh_witness :
    Event.kvIn? (Event.fwd 0 [] [5]) = some [] :=
  generate_kv_reset_fresh Mex chatTex decEx [0] [[("user", "hi")]]
    [PyV.int 2] [PyV.list []] 0 (Event.fwd 0 [] [5]) (by decide)

/-- A fully masked-out leading segment contributes nothing to the masked
sum. -/
theorem sum_zipWith_false (es : List ℤ) : ∀ k : ℕ,
    (List.zipWith (fun e m => if m then e else 0) es (List.replicate k false)).sum
      = 0 := by
  induction es with
  | nil => intro k; simp
  | cons e es ih =>
    intro k
    cases k with
    | zero => simp
    | succ k =>
      rw [List.replicate_succ]
      simp [ih k]

/-- The masked sum over a mask that selects only the last position is the
last entry. -/
theorem sum_zipWith_mask_last (es : List ℤ) (e : ℤ) :
    (List.zipWith (fun x m => if m then x else 0) (es ++ [e])
      (List.replicate es.length false ++ [true])).sum = e := by
  rw [List.zipWith_append _ _ _ _ _ (by simp)]
  simp [sum_zipWith_false]

/-- Claim C2 (amended): on a cache miss with a non-empty context and a
single generation token, the fresh computation stores under the context
string exactly the full log-probability row of the position immediately
following the context (the last row of the forward pass on the context),
and the subsequent cache-hit call returns the same log-likelihood value
(the row gathered at the generation token); the greedy flag of the hit
path equals the argmax test on the stored row, while the fresh flag `b`
is the masked-and-all value of the forward pass (the two coincide only
for single-token contexts — see the counterexample). -/
theorem ll_cache_amended (L : List ℕ → List (List ℤ)) (st : LLCache)
    (ctxStr genStr : String) (ctx : List ℕ) (g : ℕ)
    (hL : (L ctx).length = ctx.length) (hctx : ctx ≠ [])
    (hmiss : List.lookup ctxStr st = none)
    (hval : g < ((L ctx).getLastD []).length) :
    ∃ b : Bool,
      llUnbatched L st [((ctxStr, genStr), ctx, [g])]
        = .ok ([(gatherRow ((L ctx).getLastD []) g, b)],
               (ctxStr, (L ctx).getLastD []) :: st)
      ∧ llUnbatched L ((ctxStr, (L ctx).getLastD []) :: st)
            [((ctxStr, genStr), ctx, [g])]
        = .ok ([(gatherRow ((L ctx).getLastD []) g,
                 decide (idxOfMax ((L ctx).getLastD []) = g))],
               (ctxStr, (L ctx).getLastD []) :: st) := by
  have hpos : 0 < ctx.length := List.length_pos.mpr hctx
  have hne : L ctx ≠ [] := by
    intro h0
    rw [h0] at hL
    have hz : ctx.length = 0 := by simpa using hL.symm
    exact hctx (List.length_eq_zero.mp hz)
  set a := (L ctx).getLast hne with haDef
  have ha : (L ctx).getLast? = some a := List.getLast?_eq_getLast (L ctx) hne
  have hlastD : (L ctx).getLastD [] = a := by
    simp [List.getLastD_eq_getLast?, ha]
  have hAdecomp : (L ctx).dropLast ++ [a] = L ctx :=
    List.dropLast_append_getLast hne
  have hlen' : (L ctx).dropLast.length = (ctx.drop 1).length := by
    simp [List.length_dropLast, List.length_drop, hL]
  have hlabels' : (ctx ++ [g]).drop 1 = ctx.drop 1 ++ [g] :=
    List.drop_append_of_le_length (by omega)
  have hmask' : (List.replicate ctx.length false ++ List.replicate 1 true).drop 1
      = List.replicate (ctx.length - 1) false ++ [true] := by
    obtain ⟨m, hm⟩ : ∃ m, ctx.length = m + 1 := ⟨ctx.length - 1, by omega⟩
    rw [hm, List.replicate_succ]
    simp
  have hexp : List.zipWith gatherRow (L ctx) (ctx.drop 1 ++ [g])
      = List.zipWith gatherRow ((L ctx).dropLast) (ctx.drop 1)
          ++ [gatherRow a g] := by
    conv_lhs => rw [← hAdecomp]
    rw [List.zipWith_append _ _ _ _ _ hlen']
    rfl
  have hlenE : (List.zipWith gatherRow ((L ctx).dropLast) (ctx.drop 1)).length
      = ctx.length - 1 := by
    simp [List.length_zipWith, List.length_dropLast, List.length_drop, hL]
  have htraj : (List.zipWith (fun e m => if m then e else 0)
        (List.zipWith gatherRow (L ctx) (ctx.drop 1 ++ [g]))
        (List.replicate (ctx.length - 1) false ++ [true])).sum = gatherRow a g := by
    rw [hexp, ← hlenE]
    exact sum_zipWith_mask_last _ _
  have hexpLast : (List.zipWith gatherRow (L ctx) (ctx.drop 1 ++ [g])).getLast?
      = some (gatherRow a g) := by
    rw [hexp, List.getLast?_concat]
  have hval' : g < a.length := by rw [← hlastD]; exact hval
  have hinputs : (ctx ++ [g]).dropLast = ctx := List.dropLast_concat
  rw [hlastD]
  refine ⟨(List.zipWith (fun x m => x && m)
      (List.zipWith (fun i lab => decide (i = lab)) (List.map idxOfMax (L ctx))
        (ctx.drop 1 ++ [g]))
      (List.replicate (ctx.length - 1) false ++ [true])).all id, ?_, ?_⟩
  · rw [llUnbatched]
    dsimp only
    simp only [hmiss, Option.isSome_none, Bool.false_eq_true, false_and,
      if_false, hinputs, hlabels', List.length_singleton, eq_self_iff_true,
      if_true, hmask', hexpLast, ha, htraj]
    simp only [sub_self, zero_add, List.map_id']
  · have hlook : List.lookup ctxStr ((ctxStr, a) :: st) = some a := by
      simp [List.lookup]
    rw [llUnbatched]
    dsimp only
    simp only [hlook, Option.isSome_some, List.length_singleton,
      eq_self_iff_true, and_self, if_true, Option.getD_some, List.headD_cons,
      pyIndex, hval']
    rfl

/-- Witness for `ll_cache_amended` at the concrete model `Lex`. -/
theorem ll_cache_amended_witness :
    ∃ b : Bool,
      llUnbatched Lex [] [(("ab", "c"), [0, 1], [2])]
        = .ok ([(gatherRow ((Lex [0, 1]).getLastD []) 2, b)],
               ("ab", (Lex [0, 1]).getLastD []) :: [])
      ∧ llUnbatched Lex (("ab", (Lex [0, 1]).getLastD []) :: [])
            [(("ab", "c"), [0, 1], [2])]
        = .ok ([(gatherRow ((Lex [0, 1]).getLastD []) 2,
                 decide (idxOfMax ((Lex [0, 1]).getLastD []) = 2))],
               ("ab", (Lex [0, 1]).getLastD []) :: []) :=
  ll_cache_amended Lex [] "ab" "c" [0, 1] 2 (by decide) (by decide)
    (by decide) (by decide)

end CustomLM
